import Mathlib

/-!
Shallow embedding of the auction run-loop of `crates/autopilot/src/run_loop.rs`
(winner selection, fairness filtering, ranking, post-processing, the
idempotent-skip check of the loop driver, and the in-flight order bookkeeping
of settlement execution), together with theorems checking the natural-language
specification against it.

Machine integers (`U256`, `U512`) are modelled as `Nat` with explicit bounds
`< 2 ^ 256` (resp. `< 2 ^ 512`) stated where overflow matters.  Hash maps and
hash sets are modelled as association lists resp. `Finset`s.  Fallible code
returns `Except`/`Option`; effectful code returns an explicit effect trace.
-/

/-- Token addresses as used by the run loop.  `native` is the pseudo-native
token (ETH placeholder address), `erc20 a` an ERC-20 token address `a`. -/
inductive Token
  | native
  | erc20 (addr : Nat)
deriving DecidableEq, Repr

/-- Modelled from the spec: the winner-selection step maps "the pseudo-native
token to the wrapped-native address" (`TokenAddress::as_erc20` is not part of
the sources under `src/`).  An ERC-20 token is returned unchanged. -/
def Token.as_erc20 (t : Token) (wrappedNative : Nat) : Nat :=
  match t with
  | .native => wrappedNative
  | .erc20 a => a

/-- A 56-byte order uid, `run_loop.rs` uses its `owner()` projection. -/
structure OrderUid where
  hash : Nat
  owner : Nat
deriving DecidableEq, Repr

/-- An executed trade of one order inside a solution (`TradedOrder` from
`domain::competition`): sell/buy token plus executed amounts, as consumed by
`RunLoop::competition` and `RunLoop::is_solution_fair`. -/
structure TradedOrder where
  sellToken : Token
  buyToken : Token
  executed_sell : Nat
  executed_buy : Nat
deriving DecidableEq, Repr

/-- An auction order as consumed by the run loop: its uid, the traded tokens
and the protocol fee policies (kept opaque). -/
structure Order where
  uid : OrderUid
  sellToken : Token
  buyToken : Token
  protocol_fees : List Nat
deriving DecidableEq, Repr

/-- A domain auction (`domain::Auction`): id, block, orders, external prices
and the surplus capturing JIT order owners. -/
structure Auction where
  id : Int
  block : Nat
  orders : List Order
  prices : List (Token × Nat)
  surplus_capturing_jit_order_owners : List Nat
deriving DecidableEq, Repr

/-- The auction data before an id is assigned (`domain::RawAuctionData`). -/
structure RawAuctionData where
  block : Nat
  orders : List Order
  prices : List (Token × Nat)
  surplus_capturing_jit_order_owners : List Nat
deriving DecidableEq, Repr

/-- A candidate solution produced by a driver. -/
structure Solution where
  id : Nat
  solver : Nat
  score : Nat
  prices : List (Token × Nat)
  orders : List (OrderUid × TradedOrder)
deriving DecidableEq, Repr

/-- A driver description (`infra::Driver`): name, submission address and the
optional fairness threshold. -/
structure Driver where
  name : String
  submission_address : Nat
  fairness_threshold : Option Nat
deriving DecidableEq, Repr

/-- An unranked participant: a solution paired with its driver. -/
structure Participant where
  solution : Solution
  driver : Driver
deriving DecidableEq, Repr

/-- A ranked participant: a participant plus its winner flag. -/
structure RankedParticipant where
  participant : Participant
  is_winner : Bool
deriving DecidableEq, Repr

/-- The closure `improvement_in_buy` of `RunLoop::is_solution_fair`
(run_loop.rs lines 630-647).  `full_mul` of two `U256` values is exact `Nat`
multiplication (the `U512` product), `checked_sub(..).unwrap_or_default()` is
truncated `Nat` subtraction, and `checked_div` by a zero
`right.executed_sell` yields `0` (`unwrap_or_default`). -/
def improvement_in_buy (left right : TradedOrder) : Nat :=
  let right_sell_left_buy := right.executed_sell * left.executed_buy
  let left_sell_right_buy := left.executed_sell * right.executed_buy
  let improvement := right_sell_left_buy - left_sell_right_buy
  if right.executed_sell = 0 then 0 else improvement / right.executed_sell

/-- The specification formula for the improvement metric, written over exact
integers: `max(0, (right.sell * left.buy - left.sell * right.buy) / right.sell)`. -/
def specImprovement (left right : TradedOrder) : Int :=
  max 0 (((right.executed_sell : Int) * left.executed_buy
      - (left.executed_sell : Int) * right.executed_buy) / right.executed_sell)

theorem improvement_le_left_buy (left right : TradedOrder) :
    improvement_in_buy left right ≤ left.executed_buy := by
  unfold improvement_in_buy
  split
  · exact Nat.zero_le _
  · rename_i h
    calc (right.executed_sell * left.executed_buy
            - left.executed_sell * right.executed_buy) / right.executed_sell
        ≤ right.executed_sell * left.executed_buy / right.executed_sell :=
          Nat.div_le_div_right (Nat.sub_le _ _)
      _ = left.executed_buy := Nat.mul_div_cancel_left _ (Nat.pos_of_ne_zero h)

theorem improvement_eq_spec (left right : TradedOrder)
    (h : right.executed_sell ≠ 0) :
    (improvement_in_buy left right : Int) = specImprovement left right := by
  unfold improvement_in_buy specImprovement
  simp only [if_neg h]
  rcases Nat.le_total (left.executed_sell * right.executed_buy)
      (right.executed_sell * left.executed_buy) with hle | hle
  · rw [← Nat.cast_mul, ← Nat.cast_mul, ← Nat.cast_sub hle, ← Int.ofNat_ediv]
    rw [max_eq_right (Int.ofNat_nonneg _)]
  · rw [Nat.sub_eq_zero_of_le hle, Nat.zero_div]
    have hnum : ((right.executed_sell : Int) * left.executed_buy
        - (left.executed_sell : Int) * right.executed_buy) ≤ 0 := by
      have := Nat.cast_le (α := Int) |>.mpr hle
      push_cast at this ⊢
      omega
    have hden : (0 : Int) < right.executed_sell := by
      exact_mod_cast Nat.pos_of_ne_zero h
    have hq : ((right.executed_sell : Int) * left.executed_buy
        - (left.executed_sell : Int) * right.executed_buy) / right.executed_sell
        ≤ 0 := by
      have := Int.ediv_le_ediv hden hnum
      simpa using this
    simp [max_eq_left hq]

/-- C3: for any two executions `left` and `right` of the same order, the
improvement of `left` over `right` in buy-token units equals
`max(0, (right.sell * left.buy - left.sell * right.buy) / right.sell)` over
exact integers; the 512-bit intermediate products never overflow, the
quotient fits in 256 bits (the narrowing conversion cannot fail), and a zero
`right.executed_sell` yields `0`. -/
theorem c3_improvement_metric (left right : TradedOrder)
    (hlb : left.executed_buy < 2 ^ 256) (hls : left.executed_sell < 2 ^ 256)
    (hrb : right.executed_buy < 2 ^ 256) (hrs : right.executed_sell < 2 ^ 256) :
    right.executed_sell * left.executed_buy < 2 ^ 512
      ∧ left.executed_sell * right.executed_buy < 2 ^ 512
      ∧ (right.executed_sell ≠ 0 →
          (improvement_in_buy left right : Int) = specImprovement left right)
      ∧ improvement_in_buy left right < 2 ^ 256
      ∧ (right.executed_sell = 0 → improvement_in_buy left right = 0) := by
  refine ⟨?_, ?_, fun h => improvement_eq_spec left right h, ?_, fun h => ?_⟩
  · calc right.executed_sell * left.executed_buy
        < 2 ^ 256 * 2 ^ 256 := by
          exact Nat.mul_lt_mul_of_lt_of_lt hrs hlb
      _ = 2 ^ 512 := by norm_num
  · calc left.executed_sell * right.executed_buy
        < 2 ^ 256 * 2 ^ 256 := by
          exact Nat.mul_lt_mul_of_lt_of_lt hls hrb
      _ = 2 ^ 512 := by norm_num
  · exact lt_of_le_of_lt (improvement_le_left_buy left right) hlb
  · unfold improvement_in_buy
    simp [h]

/-- Witness for `c3_improvement_metric` at the concrete executions
`left = (sell 3, buy 7)` and `right = (sell 5, buy 2)`. -/
theorem c3_improvement_metric_witness :
    (5 * 7 < 2 ^ 512
      ∧ 3 * 2 < 2 ^ 512
      ∧ ((5 : Nat) ≠ 0 →
          (improvement_in_buy ⟨Token.native, Token.native, 3, 7⟩
              ⟨Token.native, Token.native, 5, 2⟩ : Int)
            = specImprovement ⟨Token.native, Token.native, 3, 7⟩
              ⟨Token.native, Token.native, 5, 2⟩)
      ∧ improvement_in_buy ⟨Token.native, Token.native, 3, 7⟩
          ⟨Token.native, Token.native, 5, 2⟩ < 2 ^ 256
      ∧ ((5 : Nat) = 0 →
          improvement_in_buy ⟨Token.native, Token.native, 3, 7⟩
            ⟨Token.native, Token.native, 5, 2⟩ = 0)) := by
  exact c3_improvement_metric ⟨Token.native, Token.native, 3, 7⟩
    ⟨Token.native, Token.native, 5, 2⟩ (by norm_num) (by norm_num)
    (by norm_num) (by norm_num)

/-- The token set a participant swaps, as computed by the winner-selection
step of `RunLoop::competition` (run_loop.rs lines 592-602): the sell and buy
tokens of all its orders, with the pseudo-native token mapped to the
wrapped-native address. -/
def participantTokens (wrappedNative : Nat) (p : Participant) : Finset Nat :=
  (p.solution.orders.map
    (fun e => [e.2.sellToken.as_erc20 wrappedNative,
               e.2.buyToken.as_erc20 wrappedNative])).flatten.toFinset

/-- The mutable selection state of `RunLoop::competition`:
`already_swapped_tokens` and the `winners` counter. -/
structure SelState where
  already_swapped : Finset Nat
  winners : Nat
deriving DecidableEq

/-- One iteration of the winner-selection loop (run_loop.rs lines 589-611):
the participant wins iff its token set is disjoint from
`already_swapped_tokens` and fewer than `maxW` winners were marked; its
tokens are unioned into the state regardless of winner status. -/
def selStep (wrappedNative maxW : Nat) (st : SelState) (p : Participant) :
    RankedParticipant × SelState :=
  let toks := participantTokens wrappedNative p
  let isw : Bool := decide (toks ∩ st.already_swapped = ∅) && decide (st.winners < maxW)
  (⟨p, isw⟩, ⟨st.already_swapped ∪ toks, st.winners + (if isw then 1 else 0)⟩)

/-- The winner-selection loop of `RunLoop::competition`: walks the fair,
sorted sequence from best to worst, threading the selection state. -/
def selectWinners (wrappedNative maxW : Nat) (st : SelState) :
    List Participant → List RankedParticipant
  | [] => []
  | p :: rest =>
    let step := selStep wrappedNative maxW st p
    step.1 :: selectWinners wrappedNative maxW step.2 rest

/-- The union of the token sets of a list of participants (the contents of
`already_swapped_tokens` after processing them, starting from the empty set). -/
def accumulatedTokens (wrappedNative : Nat) (ps : List Participant) : Finset Nat :=
  ps.foldr (fun p acc => participantTokens wrappedNative p ∪ acc) ∅

/-- The number of participants marked winner in a ranked list. -/
def winnersCount (out : List RankedParticipant) : Nat :=
  (out.filter (·.is_winner)).length

theorem length_selectWinners (w m : Nat) (st : SelState) (ps : List Participant) :
    (selectWinners w m st ps).length = ps.length := by
  induction ps generalizing st with
  | nil => rfl
  | cons p rest ih => simp [selectWinners, ih]

theorem map_participant_selectWinners (w m : Nat) (st : SelState)
    (ps : List Participant) :
    (selectWinners w m st ps).map (·.participant) = ps := by
  induction ps generalizing st with
  | nil => rfl
  | cons p rest ih => simp [selectWinners, selStep, ih]

theorem take_selectWinners (w m : Nat) (st : SelState) (ps : List Participant)
    (i : Nat) :
    (selectWinners w m st ps).take i = selectWinners w m st (ps.take i) := by
  induction ps generalizing st i with
  | nil => simp [selectWinners]
  | cons p rest ih =>
    cases i with
    | zero => simp [selectWinners]
    | succ i => simp [selectWinners, ih]

theorem winnersCount_cons (r : RankedParticipant) (l : List RankedParticipant) :
    winnersCount (r :: l) = (if r.is_winner then 1 else 0) + winnersCount l := by
  simp only [winnersCount, List.filter_cons]
  split
  · simp
    omega
  · simp

theorem selectWinners_get (w m : Nat) (st : SelState) (ps : List Participant)
    (i : Nat) (hi : i < ps.length)
    (hi2 : i < (selectWinners w m st ps).length) :
    (selectWinners w m st ps).get ⟨i, hi2⟩ =
      ⟨ps.get ⟨i, hi⟩,
        decide (participantTokens w (ps.get ⟨i, hi⟩)
            ∩ (st.already_swapped ∪ accumulatedTokens w (ps.take i)) = ∅)
          && decide (st.winners
              + winnersCount ((selectWinners w m st ps).take i) < m)⟩ := by
  induction ps generalizing st i with
  | nil => simp at hi
  | cons p rest ih =>
    cases i with
    | zero =>
      simp [selectWinners, selStep, accumulatedTokens, winnersCount]
    | succ i =>
      have hi' : i < rest.length := by simpa using hi
      have hstep :
          selectWinners w m st (p :: rest)
            = (selStep w m st p).1
                :: selectWinners w m (selStep w m st p).2 rest := rfl
      have hi2' : i < (selectWinners w m (selStep w m st p).2 rest).length := by
        rw [length_selectWinners]; exact hi'
      have hget :
          (selectWinners w m st (p :: rest)).get ⟨i + 1, hi2⟩
            = (selectWinners w m (selStep w m st p).2 rest).get ⟨i, hi2'⟩ := by
        simp [hstep]
      rw [hget, ih (selStep w m st p).2 i hi' hi2']
      have htake : (p :: rest).take (i + 1) = p :: rest.take i := rfl
      have hacc : accumulatedTokens w ((p :: rest).take (i + 1))
          = participantTokens w p ∪ accumulatedTokens w (rest.take i) := by
        rw [htake]; rfl
      have htake2 : (selectWinners w m st (p :: rest)).take (i + 1)
          = (selStep w m st p).1
              :: (selectWinners w m (selStep w m st p).2 rest).take i := by
        rw [hstep]; rfl
      have hwc : winnersCount ((selectWinners w m st (p :: rest)).take (i + 1))
          = (if (selStep w m st p).1.is_winner then 1 else 0)
            + winnersCount ((selectWinners w m (selStep w m st p).2 rest).take i) := by
        rw [htake2, winnersCount_cons]
      refine congrArg₂ RankedParticipant.mk ?_ ?_
      · simp
      · have hal : (selStep w m st p).2.already_swapped
            = st.already_swapped ∪ participantTokens w p := rfl
        have hwi : (selStep w m st p).2.winners
            = st.winners + (if (selStep w m st p).1.is_winner then 1 else 0) := rfl
        rw [hal, hwi, hwc, hacc]
        have hu : st.already_swapped
              ∪ (participantTokens w p ∪ accumulatedTokens w (rest.take i))
            = st.already_swapped ∪ participantTokens w p
              ∪ accumulatedTokens w (rest.take i) := by
          rw [Finset.union_assoc]
        have hn : st.winners
              + (if (selStep w m st p).1.is_winner then 1 else 0)
              + winnersCount ((selectWinners w m (selStep w m st p).2 rest).take i)
            = st.winners
              + ((if (selStep w m st p).1.is_winner then 1 else 0)
                + winnersCount ((selectWinners w m (selStep w m st p).2 rest).take i)) := by
          omega
        rw [hu, hn]
        simp

theorem selectWinners_bound (w m : Nat) (st : SelState) (ps : List Participant)
    (h : st.winners ≤ m) :
    st.winners + winnersCount (selectWinners w m st ps) ≤ m := by
  induction ps generalizing st with
  | nil => simpa [selectWinners, winnersCount] using h
  | cons p rest ih =>
    have hstep : selectWinners w m st (p :: rest)
        = (selStep w m st p).1 :: selectWinners w m (selStep w m st p).2 rest := rfl
    rw [hstep, winnersCount_cons]
    have hwin : (selStep w m st p).2.winners
        = st.winners + (if (selStep w m st p).1.is_winner then 1 else 0) := rfl
    have hle : (selStep w m st p).2.winners ≤ m := by
      rw [hwin]
      by_cases hb : (selStep w m st p).1.is_winner = true
      · have hb' : st.winners < m := by
          have hc := hb
          simp only [selStep, Bool.and_eq_true, decide_eq_true_eq] at hc
          exact hc.2
        simp only [hb, if_true]
        omega
      · simp only [hb, if_false]
        exact h
    have hrec := ih (selStep w m st p).2 hle
    rw [hwin] at hrec
    omega

theorem participantTokens_subset_accumulated (w : Nat) (p : Participant)
    (ps : List Participant) (hp : p ∈ ps) :
    participantTokens w p ⊆ accumulatedTokens w ps := by
  induction ps with
  | nil => simp at hp
  | cons q rest ih =>
    have hacc : accumulatedTokens w (q :: rest)
        = participantTokens w q ∪ accumulatedTokens w rest := rfl
    rw [hacc]
    rcases List.mem_cons.mp hp with hq | hrest
    · rw [hq]
      exact Finset.subset_union_left
    · exact (ih hrest).trans Finset.subset_union_right

/-- C1: walking the fair, score-sorted sequence from best to worst, a
participant is marked winner iff its token set (pseudo-native mapped to
wrapped-native) is disjoint from the accumulated `swapped_tokens` set — which
collects the tokens of every processed participant regardless of winner
status — and the number of winners marked so far is strictly below
`max_winners_per_auction`; consequently the number of winners never exceeds
`max_winners_per_auction` (on any prefix and on the whole sequence) and the
token sets of any two distinct winners are disjoint. -/
theorem c1_winner_selection (w m : Nat) (ps : List Participant) (i j : Nat)
    (hi : i < ps.length) (hj : j < ps.length) (hij : i < j)
    (hi2 : i < (selectWinners w m ⟨∅, 0⟩ ps).length)
    (hj2 : j < (selectWinners w m ⟨∅, 0⟩ ps).length) :
    (((selectWinners w m ⟨∅, 0⟩ ps).get ⟨i, hi2⟩).is_winner = true ↔
        participantTokens w (ps.get ⟨i, hi⟩) ∩ accumulatedTokens w (ps.take i) = ∅
          ∧ winnersCount ((selectWinners w m ⟨∅, 0⟩ ps).take i) < m)
      ∧ winnersCount (selectWinners w m ⟨∅, 0⟩ ps) ≤ m
      ∧ winnersCount ((selectWinners w m ⟨∅, 0⟩ ps).take i) ≤ m
      ∧ (((selectWinners w m ⟨∅, 0⟩ ps).get ⟨i, hi2⟩).is_winner = true →
          ((selectWinners w m ⟨∅, 0⟩ ps).get ⟨j, hj2⟩).is_winner = true →
          participantTokens w (ps.get ⟨i, hi⟩)
            ∩ participantTokens w (ps.get ⟨j, hj⟩) = ∅) := by
  refine ⟨?_, ?_, ?_, ?_⟩
  · rw [selectWinners_get w m ⟨∅, 0⟩ ps i hi hi2]
    simp
  · have := selectWinners_bound w m ⟨∅, 0⟩ ps (Nat.zero_le m)
    simpa using this
  · rw [take_selectWinners]
    have := selectWinners_bound w m ⟨∅, 0⟩ (ps.take i) (Nat.zero_le m)
    simpa using this
  · intro hwi hwj
    rw [selectWinners_get w m ⟨∅, 0⟩ ps j hj hj2] at hwj
    simp only [Bool.and_eq_true, decide_eq_true_eq, Finset.empty_union] at hwj
    have hdisj_j : Disjoint (participantTokens w (ps.get ⟨j, hj⟩))
        (accumulatedTokens w (ps.take j)) :=
      Finset.disjoint_iff_inter_eq_empty.mpr hwj.1
    have hmem : ps.get ⟨i, hi⟩ ∈ ps.take j := by
      have hlen : i < (ps.take j).length := by
        rw [List.length_take]
        omega
      have heq : (ps.take j).get ⟨i, hlen⟩ = ps.get ⟨i, hi⟩ := by
        simp [List.getElem_take']
      rw [← heq]
      exact List.get_mem (ps.take j) i hlen
    have hsub : participantTokens w (ps.get ⟨i, hi⟩)
        ⊆ accumulatedTokens w (ps.take j) :=
      participantTokens_subset_accumulated w _ _ hmem
    have : Disjoint (participantTokens w (ps.get ⟨j, hj⟩))
        (participantTokens w (ps.get ⟨i, hi⟩)) :=
      hdisj_j.mono_right hsub
    exact Finset.disjoint_iff_inter_eq_empty.mp this.symm

/-- A concrete participant swapping tokens 1 and 2 (score 10). -/
def exPA : Participant :=
  ⟨⟨0, 1, 10, [], [(⟨1, 1⟩, ⟨Token.erc20 1, Token.erc20 2, 1, 1⟩)]⟩, ⟨"a", 1, none⟩⟩

/-- A concrete participant swapping tokens 1 and 3 (score 5). -/
def exPB : Participant :=
  ⟨⟨1, 2, 5, [], [(⟨2, 2⟩, ⟨Token.erc20 1, Token.erc20 3, 1, 1⟩)]⟩, ⟨"b", 2, none⟩⟩

/-- Witness for `c1_winner_selection` at the two concrete participants
`exPA` and `exPB` with `max_winners_per_auction = 1`. -/
theorem c1_winner_selection_witness :
    (((selectWinners 0 1 ⟨∅, 0⟩ [exPA, exPB]).get
          ⟨0, by rw [length_selectWinners]; norm_num⟩).is_winner = true ↔
        participantTokens 0 ([exPA, exPB].get ⟨0, by norm_num⟩)
            ∩ accumulatedTokens 0 ([exPA, exPB].take 0) = ∅
          ∧ winnersCount ((selectWinners 0 1 ⟨∅, 0⟩ [exPA, exPB]).take 0) < 1)
      ∧ winnersCount (selectWinners 0 1 ⟨∅, 0⟩ [exPA, exPB]) ≤ 1
      ∧ winnersCount ((selectWinners 0 1 ⟨∅, 0⟩ [exPA, exPB]).take 0) ≤ 1
      ∧ (((selectWinners 0 1 ⟨∅, 0⟩ [exPA, exPB]).get
            ⟨0, by rw [length_selectWinners]; norm_num⟩).is_winner = true →
          ((selectWinners 0 1 ⟨∅, 0⟩ [exPA, exPB]).get
            ⟨1, by rw [length_selectWinners]; norm_num⟩).is_winner = true →
          participantTokens 0 ([exPA, exPB].get ⟨0, by norm_num⟩)
            ∩ participantTokens 0 ([exPA, exPB].get ⟨1, by norm_num⟩) = ∅) :=
  c1_winner_selection 0 1 [exPA, exPB] 0 1 (by norm_num) (by norm_num)
    (by norm_num) (by rw [length_selectWinners]; norm_num)
    (by rw [length_selectWinners]; norm_num)

/-- Sortedness by score, descending (the order produced by sorting with key
`Reverse(participant.solution.score)`). -/
def scoreDescSorted (l : List Participant) : Prop :=
  List.Sorted (fun a b => b.solution.score ≤ a.solution.score) l

/-- Contract of `solutions.sort_unstable_by_key(Reverse(score))` in
`RunLoop::competition` (run_loop.rs lines 532-536): the output is a
permutation of the shuffled input that is sorted by score descending.  The
Rust standard library documents `sort_unstable_by_key` as an unstable sort —
equal elements may be reordered — so nothing more is guaranteed. -/
def isScoreSortOutput (inp out : List Participant) : Prop :=
  inp.Perm out ∧ scoreDescSorted out

/-- A concrete participant with score 7 (driver `x`). -/
def cpa : Participant := ⟨⟨0, 1, 7, [], []⟩, ⟨"x", 1, none⟩⟩

/-- A concrete participant with score 7 (driver `y`). -/
def cpb : Participant := ⟨⟨1, 2, 7, [], []⟩, ⟨"y", 2, none⟩⟩

/-- Counterexample to C5: the ranking sort is `sort_unstable_by_key`, not a
stable sort.  For the concrete equal-score participants `cpa ≠ cpb`, the
output `[cpb, cpa]` satisfies everything the unstable sort guarantees for the
input `[cpa, cpb]` while reversing the relative order of the equal-score
pair, so participants with equal scores are not guaranteed to keep their
post-shuffle relative order. -/
theorem c5_counterexample :
    cpa.solution.score = cpb.solution.score
      ∧ cpa ≠ cpb
      ∧ isScoreSortOutput [cpa, cpb] [cpb, cpa]
      ∧ [cpb, cpa] ≠ [cpa, cpb] := by
  refine ⟨rfl, by decide, ⟨List.Perm.swap cpb cpa [], ?_⟩, by decide⟩
  simp [scoreDescSorted, List.sorted_cons, cpa, cpb]

/-- C5 (amended): the collected participants are shuffled and then sorted by
score descending with an unstable sort (`sort_unstable_by_key`), whose output
is a permutation of the shuffled input sorted by score descending but may
reorder equal-score participants; given a fixed shuffle whose scores are
pairwise distinct the resulting ranking is uniquely determined, so two runs
on the same shuffled input produce the same sequence. -/
theorem c5_unstable_sort_determinism (inp o1 o2 : List Participant)
    (hdist : inp.Pairwise (fun a b => a.solution.score ≠ b.solution.score))
    (h1 : isScoreSortOutput inp o1) (h2 : isScoreSortOutput inp o2) :
    o1 = o2 ∧ scoreDescSorted o1 ∧ inp.Perm o1 := by
  refine ⟨?_, h1.2, h1.1⟩
  have hsymm : ∀ {x y : Participant},
      x.solution.score ≠ y.solution.score → y.solution.score ≠ x.solution.score :=
    fun h => h.symm
  have hd1 : o1.Pairwise (fun a b => a.solution.score ≠ b.solution.score) :=
    (List.Perm.pairwise_iff hsymm h1.1).mp hdist
  have hd2 : o2.Pairwise (fun a b => a.solution.score ≠ b.solution.score) :=
    (List.Perm.pairwise_iff hsymm h2.1).mp hdist
  have hstrict : ∀ (o : List Participant), scoreDescSorted o →
      o.Pairwise (fun a b => a.solution.score ≠ b.solution.score) →
      List.Sorted (fun a b : Participant =>
        b.solution.score < a.solution.score ∨ a = b) o := by
    intro o hs hd
    exact (hs.and hd).imp (fun h => Or.inl (h.1.lt_of_ne h.2.symm))
  haveI : IsAntisymm Participant (fun a b : Participant =>
      b.solution.score < a.solution.score ∨ a = b) := by
    constructor
    intro a b hab hba
    rcases hab with h1' | h1'
    · rcases hba with h2' | h2'
      · omega
      · exact h2'.symm
    · exact h1'
  exact List.eq_of_perm_of_sorted (h1.1.symm.trans h2.1)
    (hstrict o1 h1.2 hd1) (hstrict o2 h2.2 hd2)

/-- A concrete participant with score 9. -/
def cpc : Participant := ⟨⟨2, 3, 9, [], []⟩, ⟨"z", 3, none⟩⟩

/-- Witness for `c5_unstable_sort_determinism` on the concrete distinct-score
input `[cpc, cpa]`. -/
theorem c5_unstable_sort_determinism_witness :
    [cpc, cpa] = [cpc, cpa]
      ∧ scoreDescSorted [cpc, cpa]
      ∧ ([cpc, cpa] : List Participant).Perm [cpc, cpa] :=
  c5_unstable_sort_determinism [cpc, cpa] [cpc, cpa] [cpc, cpa]
    (by simp [cpc, cpa])
    ⟨List.Perm.refl _, by simp [scoreDescSorted, List.sorted_cons, cpc, cpa]⟩
    ⟨List.Perm.refl _, by simp [scoreDescSorted, List.sorted_cons, cpc, cpa]⟩

/-- Association-list lookup, the model of `HashMap::get`. -/
def assocLookup {α β : Type} [DecidableEq α] (k : α) : List (α × β) → Option β
  | [] => none
  | e :: rest => if e.1 = k then some e.2 else assocLookup k rest

/-- Modelled from the spec: `Price::in_eth` converts a buy-token amount into
native-token units "by multiplying by the auction's reference price for the
order's buy token" (the `Price` type is not part of the sources under
`src/`). -/
def in_eth (price amount : Nat) : Nat := price * amount

/-- One `entry(uid).and_modify(..).or_insert(..)` step of the best-execution
fold in `RunLoop::is_solution_fair` (run_loop.rs lines 650-662): an existing
entry is replaced when the candidate execution strictly improves on it in
buy-token units, a missing entry is inserted. -/
def updateBest (best : List (OrderUid × TradedOrder)) (uid : OrderUid)
    (execution : TradedOrder) : List (OrderUid × TradedOrder) :=
  match assocLookup uid best with
  | some best_execution =>
    if improvement_in_buy execution best_execution ≠ 0 then
      best.map (fun e => if e.1 = uid then (uid, execution) else e)
    else best
  | none => best ++ [(uid, execution)]

/-- Record of the best execution per order uid across `others`, as built by
the nested loop of `RunLoop::is_solution_fair` (run_loop.rs lines 649-662). -/
def bestExecutions (others : List Participant) : List (OrderUid × TradedOrder) :=
  others.foldl
    (fun acc other =>
      other.solution.orders.foldl (fun acc2 e => updateBest acc2 e.1 e.2) acc)
    []

/-- The function `RunLoop::is_solution_fair` (run_loop.rs lines 618-701).
Drivers without a `fairness_threshold` are always fair.  Otherwise the
solution is unfair iff one of its orders has an execution whose improvement
by the recorded best execution, normalised into native-token units via the
auction price of the order's buy token, strictly exceeds the threshold; a uid
absent from the auction's order list or a buy token absent from the price map
never makes the solution unfair.  The code panics (`expect`) when a uid of
the solution is missing from `best_executions`; this cannot happen when the
solution is a member of `others` (`bestExecutions_isSome_of_mem`), and the
embedding treats that dead branch as fair.  `unfairForOrder` is the per-order
closure (run_loop.rs lines 664-699). -/
def unfairForOrder (fairness_threshold : Nat)
    (best : List (OrderUid × TradedOrder)) (auction : Auction)
    (e : OrderUid × TradedOrder) : Bool :=
  match assocLookup e.1 best with
  | none => false
  | some best_execution =>
    let improvement := improvement_in_buy best_execution e.2
    if improvement = 0 then false
    else
      match auction.orders.find? (fun o => decide (o.uid = e.1)) with
      | none => false
      | some order =>
        match assocLookup order.buyToken auction.prices with
        | none => false
        | some buy_price =>
          decide (fairness_threshold < in_eth buy_price improvement)

/-- Body of `RunLoop::is_solution_fair` given a present threshold: the
solution is unfair iff some order of it satisfies `unfairForOrder`. -/
def is_solution_fair (solution : Participant) (others : List Participant)
    (auction : Auction) : Bool :=
  match solution.driver.fairness_threshold with
  | none => true
  | some fairness_threshold =>
    let best := bestExecutions others
    let unfair := solution.solution.orders.any
      (unfairForOrder fairness_threshold best auction)
    !unfair

/-- The fairness filter of `RunLoop::competition` (run_loop.rs lines
566-580): the participant at position `i` is kept iff it is fair with
respect to the suffix starting at position `i` (which includes itself). -/
def fairnessFilter (auction : Auction) : List Participant → List Participant
  | [] => []
  | p :: rest =>
    if is_solution_fair p (p :: rest) auction then p :: fairnessFilter auction rest
    else fairnessFilter auction rest

theorem assocLookup_append_some {α β : Type} [DecidableEq α] (k : α)
    (l1 l2 : List (α × β)) (v : β) (h : assocLookup k l1 = some v) :
    assocLookup k (l1 ++ l2) = some v := by
  induction l1 with
  | nil => simp [assocLookup] at h
  | cons e rest ih =>
    by_cases he : e.1 = k
    · simpa [assocLookup, he] using h
    · rw [assocLookup, if_neg he] at h
      simpa [assocLookup, he] using ih h

theorem assocLookup_append_none {α β : Type} [DecidableEq α] (k : α)
    (l1 l2 : List (α × β)) (h : assocLookup k l1 = none) :
    assocLookup k (l1 ++ l2) = assocLookup k l2 := by
  induction l1 with
  | nil => simp [assocLookup]
  | cons e rest ih =>
    by_cases he : e.1 = k
    · simp [assocLookup, he] at h
    · rw [assocLookup, if_neg he] at h
      simpa [assocLookup, he] using ih h

theorem assocLookup_map_keyfix {α β : Type} [DecidableEq α] (k uid : α)
    (ex : β) (l : List (α × β)) :
    (assocLookup k (l.map (fun e => if e.1 = uid then (uid, ex) else e))).isSome
      = (assocLookup k l).isSome := by
  induction l with
  | nil => simp [assocLookup]
  | cons e rest ih =>
    by_cases hu : e.1 = uid
    · by_cases hk : e.1 = k
      · simp [assocLookup, hu, hk, hu ▸ hk]
      · have : uid ≠ k := fun h => hk (hu.trans h)
        simp [assocLookup, hu, hk, this, ih]
    · by_cases hk : e.1 = k
      · have hku : ¬ k = uid := fun h => hu (hk.trans h)
        simp [assocLookup, hu, hk, hku]
      · simp [assocLookup, hu, hk, ih]

theorem updateBest_isSome_mono (best : List (OrderUid × TradedOrder))
    (uid : OrderUid) (ex : TradedOrder) (k : OrderUid)
    (h : (assocLookup k best).isSome) :
    (assocLookup k (updateBest best uid ex)).isSome := by
  unfold updateBest
  cases hb : assocLookup uid best with
  | some b =>
    by_cases himp : improvement_in_buy ex b ≠ 0
    · simpa [himp, assocLookup_map_keyfix] using h
    · simpa [himp] using h
  | none =>
    cases hk : assocLookup k best with
    | some v => simp [assocLookup_append_some k best [(uid, ex)] v hk]
    | none => simp [hk] at h

theorem updateBest_isSome_self (best : List (OrderUid × TradedOrder))
    (uid : OrderUid) (ex : TradedOrder) :
    (assocLookup uid (updateBest best uid ex)).isSome := by
  unfold updateBest
  cases hb : assocLookup uid best with
  | some b =>
    by_cases himp : improvement_in_buy ex b ≠ 0
    · simp [himp, assocLookup_map_keyfix, hb]
    · simp [himp, hb]
  | none =>
    rw [assocLookup_append_none uid best [(uid, ex)] hb]
    simp [assocLookup]

theorem foldOrders_isSome_mono (orders : List (OrderUid × TradedOrder))
    (acc : List (OrderUid × TradedOrder)) (k : OrderUid)
    (h : (assocLookup k acc).isSome) :
    (assocLookup k
      (orders.foldl (fun a e => updateBest a e.1 e.2) acc)).isSome := by
  induction orders generalizing acc with
  | nil => simpa using h
  | cons e rest ih =>
    exact ih (updateBest acc e.1 e.2) (updateBest_isSome_mono acc e.1 e.2 k h)

theorem foldOrders_isSome_of_mem (orders : List (OrderUid × TradedOrder))
    (acc : List (OrderUid × TradedOrder)) (e : OrderUid × TradedOrder)
    (he : e ∈ orders) :
    (assocLookup e.1
      (orders.foldl (fun a x => updateBest a x.1 x.2) acc)).isSome := by
  induction orders generalizing acc with
  | nil => simp at he
  | cons x rest ih =>
    rcases List.mem_cons.mp he with hx | hrest
    · subst hx
      exact foldOrders_isSome_mono rest (updateBest acc e.1 e.2) e.1
        (updateBest_isSome_self acc e.1 e.2)
    · exact ih (updateBest acc x.1 x.2) hrest

theorem foldOthers_isSome_mono (others : List Participant)
    (acc : List (OrderUid × TradedOrder)) (k : OrderUid)
    (h : (assocLookup k acc).isSome) :
    (assocLookup k
      (others.foldl
        (fun a o => o.solution.orders.foldl (fun a2 x => updateBest a2 x.1 x.2) a)
        acc)).isSome := by
  induction others generalizing acc with
  | nil => simpa using h
  | cons o rest ih =>
    exact ih _ (foldOrders_isSome_mono o.solution.orders acc k h)

theorem bestExecutions_isSome_of_mem (others : List Participant)
    (sol : Participant) (hsol : sol ∈ others) (e : OrderUid × TradedOrder)
    (he : e ∈ sol.solution.orders) :
    (assocLookup e.1 (bestExecutions others)).isSome := by
  unfold bestExecutions
  generalize hacc : ([] : List (OrderUid × TradedOrder)) = acc
  clear hacc
  induction others generalizing acc with
  | nil => simp at hsol
  | cons o rest ih =>
    rcases List.mem_cons.mp hsol with ho | hrest
    · subst ho
      exact foldOthers_isSome_mono rest _ e.1
        (foldOrders_isSome_of_mem sol.solution.orders acc e he)
    · exact ih hrest _

theorem unfairForOrder_eq_true_iff (t : Nat)
    (best : List (OrderUid × TradedOrder)) (auction : Auction)
    (e : OrderUid × TradedOrder) :
    unfairForOrder t best auction e = true ↔
      ∃ best_execution order buy_price,
        assocLookup e.1 best = some best_execution
          ∧ auction.orders.find? (fun o => decide (o.uid = e.1)) = some order
          ∧ assocLookup order.buyToken auction.prices = some buy_price
          ∧ t < in_eth buy_price (improvement_in_buy best_execution e.2) := by
  unfold unfairForOrder
  cases hb : assocLookup e.1 best with
  | none => simp
  | some b =>
    cases hf : auction.orders.find? (fun o => decide (o.uid = e.1)) with
    | none => simp
    | some o =>
      cases hp : assocLookup o.buyToken auction.prices with
      | none => simp [hp]
      | some p =>
        by_cases himp : improvement_in_buy b e.2 = 0
        · simp [himp, in_eth, hp]
        · simp [himp, hp]

/-- C2: a participant whose driver has no fairness threshold is always fair;
with a threshold `t`, the participant is rejected iff one of its orders has
an execution whose improvement by the recorded best execution across the
comparison set (the suffix starting at the participant itself), converted to
native units via the auction price of the order's buy token, strictly
exceeds `t`; an order uid absent from the auction's order list, or a buy
token absent from the auction's price map, never makes the participant
unfair (the existential requires both lookups to succeed); when the
participant is a member of the comparison set, every one of its order uids
has a recorded best execution (the `expect` in the code cannot fire); and
the fairness filter keeps the participant at position `i` iff
`is_solution_fair` holds for it against the suffix starting at `i`. -/
theorem c2_fairness_filter (sol : Participant) (others : List Participant)
    (auction : Auction) (t : Nat) :
    (sol.driver.fairness_threshold = none →
        is_solution_fair sol others auction = true)
      ∧ (sol.driver.fairness_threshold = some t →
          (is_solution_fair sol others auction = false ↔
            ∃ e ∈ sol.solution.orders, ∃ best_execution order buy_price,
              assocLookup e.1 (bestExecutions others) = some best_execution
                ∧ auction.orders.find? (fun o => decide (o.uid = e.1)) = some order
                ∧ assocLookup order.buyToken auction.prices = some buy_price
                ∧ t < in_eth buy_price
                    (improvement_in_buy best_execution e.2)))
      ∧ (sol ∈ others → ∀ e ∈ sol.solution.orders,
          (assocLookup e.1 (bestExecutions others)).isSome = true)
      ∧ (∀ rest, fairnessFilter auction (sol :: rest)
          = if is_solution_fair sol (sol :: rest) auction = true
            then sol :: fairnessFilter auction rest
            else fairnessFilter auction rest) := by
  refine ⟨fun hn => ?_, fun ht => ?_,
    fun hmem e he => bestExecutions_isSome_of_mem others sol hmem e he,
    fun rest => ?_⟩
  · unfold is_solution_fair
    rw [hn]
  · unfold is_solution_fair
    rw [ht]
    simp only [Bool.not_eq_false', List.any_eq_true, unfairForOrder_eq_true_iff]
  · simp [fairnessFilter]

/-- A concrete fairness scenario: order `fairU` is traded by two solutions. -/
def fairU : OrderUid := ⟨5, 5⟩

/-- A participant whose driver has fairness threshold 10 and whose execution
of `fairU` buys 1000 for 1000 sold. -/
def fairSolP : Participant :=
  ⟨⟨0, 1, 10, [], [(fairU, ⟨Token.erc20 1, Token.erc20 2, 1000, 1000⟩)]⟩,
    ⟨"s", 1, some 10⟩⟩

/-- A participant whose execution of `fairU` buys 3000 for 1000 sold. -/
def fairBetterP : Participant :=
  ⟨⟨1, 2, 20, [], [(fairU, ⟨Token.erc20 1, Token.erc20 2, 1000, 3000⟩)]⟩,
    ⟨"u", 2, none⟩⟩

/-- A concrete auction containing the order `fairU` with buy-token price 1. -/
def fairAuction : Auction :=
  ⟨1, 1, [⟨fairU, Token.erc20 1, Token.erc20 2, []⟩], [(Token.erc20 2, 1)], []⟩

theorem fairness_scenario_eval :
    is_solution_fair fairSolP [fairSolP, fairBetterP] fairAuction = false := by
  decide

/-- Witness for `c2_fairness_filter` at the concrete fairness scenario:
`fairSolP` (threshold 10) is compared against the suffix
`[fairSolP, fairBetterP]` in `fairAuction`. -/
theorem c2_fairness_filter_witness :
    (fairSolP.driver.fairness_threshold = none →
        is_solution_fair fairSolP [fairSolP, fairBetterP] fairAuction = true)
      ∧ (fairSolP.driver.fairness_threshold = some 10 →
          (is_solution_fair fairSolP [fairSolP, fairBetterP] fairAuction = false ↔
            ∃ e ∈ fairSolP.solution.orders, ∃ best_execution order buy_price,
              assocLookup e.1 (bestExecutions [fairSolP, fairBetterP])
                  = some best_execution
                ∧ fairAuction.orders.find? (fun o => decide (o.uid = e.1))
                    = some order
                ∧ assocLookup order.buyToken fairAuction.prices = some buy_price
                ∧ 10 < in_eth buy_price
                    (improvement_in_buy best_execution e.2)))
      ∧ (fairSolP ∈ [fairSolP, fairBetterP] → ∀ e ∈ fairSolP.solution.orders,
          (assocLookup e.1 (bestExecutions [fairSolP, fairBetterP])).isSome = true)
      ∧ (∀ rest, fairnessFilter fairAuction (fairSolP :: rest)
          = if is_solution_fair fairSolP (fairSolP :: rest) fairAuction = true
            then fairSolP :: fairnessFilter fairAuction rest
            else fairnessFilter fairAuction rest) :=
  c2_fairness_filter fairSolP [fairSolP, fairBetterP] fairAuction 10

/-- One row of the serialisable `competition_table.solutions` array
(`SolverSettlement`): solver name and address, score, computed ranking,
per-order executed amounts, clearing prices and winner flag. -/
structure SolverSettlement where
  solver : String
  solver_address : Nat
  score : Nat
  ranking : Nat
  orders : List (OrderUid × Nat × Nat)
  clearing_prices : List (Token × Nat)
  is_winner : Bool
deriving DecidableEq, Repr

/-- The row built for a ranked participant with a given computed ranking
(run_loop.rs lines 428-450). -/
def settlementRow (p : RankedParticipant) (ranking : Nat) : SolverSettlement :=
  { solver := p.participant.driver.name
    solver_address := p.participant.solution.solver
    score := p.participant.solution.score
    ranking := ranking
    orders := p.participant.solution.orders.map
      (fun e => (e.1, e.2.executed_sell, e.2.executed_buy))
    clearing_prices := p.participant.solution.prices
    is_winner := p.is_winner }

/-- The `solutions` array of the competition table (run_loop.rs lines
423-451): the ranked sequence reversed (worst first), the entry at `index`
carrying `ranking = solutions.len() - index`. -/
def tableSolutions (solutions : List RankedParticipant) : List SolverSettlement :=
  solutions.reverse.enum.map (fun ie => settlementRow ie.2 (solutions.length - ie.1))

/-- First-occurrence deduplication with an accumulator of already seen
elements (the model of `Itertools::unique`). -/
def dedupFirstAux {α : Type} [DecidableEq α] (seen : List α) : List α → List α
  | [] => []
  | x :: rest =>
    if x ∈ seen then dedupFirstAux seen rest
    else x :: dedupFirstAux (x :: seen) rest

/-- First-occurrence deduplication (the model of `Itertools::unique`). -/
def dedupFirst {α : Type} [DecidableEq α] (l : List α) : List α :=
  dedupFirstAux [] l

/-- The fee-policy join of `RunLoop::post_processing` (run_loop.rs lines
388-406): each distinct order id appearing in any solution is joined against
the auction's order list; ids missing from the auction (JIT orders) are
skipped. -/
def feePolicies (auction : Auction) (solutions : List RankedParticipant) :
    List (OrderUid × List Nat) :=
  (dedupFirst ((solutions.map
      (fun p => p.participant.solution.orders.map (fun e => e.1))).flatten)).filterMap
    (fun order_id =>
      match auction.orders.find? (fun o => decide (o.uid = order_id)) with
      | some o => some (o.uid, o.protocol_fees)
      | none => none)

/-- The competition record assembled by `RunLoop::post_processing`
(run_loop.rs lines 408-468, `database::competition::Competition`), with the
`SolverCompetitionDB` table flattened into the `table_*` fields. -/
structure Competition where
  auction_id : Int
  winner : Nat
  winning_score : Nat
  reference_score : Nat
  participants : Finset Nat
  prices : List (Token × Nat)
  block_deadline : Nat
  competition_simulation_block : Nat
  auction_start_block : Nat
  table_solutions : List SolverSettlement
  table_auction_orders : List OrderUid
  table_auction_prices : List (Token × Nat)
deriving DecidableEq

/-- The pure part of `RunLoop::post_processing` (run_loop.rs lines 367-468):
fails with "no winners found" when no ranked participant is a winner,
otherwise assembles the competition record from the first winner, the
position-1 reference score and the reversed solutions table. -/
def buildCompetition (auction : Auction) (competition_simulation_block : Nat)
    (solutions : List RankedParticipant) (block_deadline : Nat) :
    Except String Competition :=
  match solutions.find? (·.is_winner) with
  | none => .error "no winners found"
  | some winner_participant =>
    let winning_solution := winner_participant.participant.solution
    .ok
      { auction_id := auction.id
        winner := winning_solution.solver
        winning_score := winning_solution.score
        reference_score := ((solutions[1]?).map
          (fun p => p.participant.solution.score)).getD 0
        participants :=
          (solutions.map (fun p => p.participant.solution.solver)).toFinset
        prices := auction.prices
        block_deadline := block_deadline
        competition_simulation_block := competition_simulation_block
        auction_start_block := auction.block
        table_solutions := tableSolutions solutions
        table_auction_orders := auction.orders.map (fun o => o.uid)
        table_auction_prices := auction.prices }

/-- Outcomes of the persistence calls made by `RunLoop::post_processing`. -/
structure SaveEnv where
  saveAuctionOk : Bool
  saveSolutionsOk : Bool
  saveCompetitionOk : Bool
  saveJitOwnersOk : Bool
  storeFeePoliciesOk : Bool
deriving DecidableEq, Repr

/-- Effects emitted by the post-processing stage, in program order. -/
inductive PPEffect
  | saveAuction
  | saveSolutions
  | notifyCompetitionUpdates
  | logSaveGroupFailure
  | saveCompetition
  | saveJitOwners
  | storeFeePolicies
deriving DecidableEq, Repr

/-- The function `RunLoop::post_processing` (run_loop.rs lines 360-510):
builds the competition record (failing when no ranked participant is a
winner), dispatches `save_auction` and `save_solutions` concurrently and
only logs their failure, publishes the competition-updates notification
exactly when both succeed and before the second group is dispatched, then
dispatches `save_competition`, `save_surplus_capturing_jit_order_owners` and
`store_fee_policies`, any failure of which aborts the iteration with an
error. -/
def post_processing (env : SaveEnv) (auction : Auction)
    (competition_simulation_block : Nat) (solutions : List RankedParticipant)
    (block_deadline : Nat) : List PPEffect × Except String Competition :=
  match buildCompetition auction competition_simulation_block solutions
      block_deadline with
  | .error e => ([], .error e)
  | .ok competition =>
    let group1Effects :=
      if env.saveAuctionOk && env.saveSolutionsOk then
        [PPEffect.saveAuction, PPEffect.saveSolutions,
          PPEffect.notifyCompetitionUpdates]
      else
        [PPEffect.saveAuction, PPEffect.saveSolutions,
          PPEffect.logSaveGroupFailure]
    let group2Effects := [PPEffect.saveCompetition, PPEffect.saveJitOwners,
      PPEffect.storeFeePolicies]
    let result :=
      if !env.saveCompetitionOk then
        Except.error "failed to save competition"
      else if !env.saveJitOwnersOk then
        Except.error "failed to save jit order owners"
      else if !env.storeFeePoliciesOk then
        Except.error "failed to fee_policies"
      else Except.ok competition
    (group1Effects ++ group2Effects, result)

theorem tableSolutions_getElem (solutions : List RankedParticipant) (i : Nat) :
    (tableSolutions solutions)[i]? =
      (solutions.reverse[i]?).map
        (fun p => settlementRow p (solutions.length - i)) := by
  unfold tableSolutions
  rw [List.getElem?_map, List.getElem?_enum]
  cases solutions.reverse[i]? with
  | none => rfl
  | some p => rfl

/-- C6 (amended): the competition table solutions array is the ranked
sequence reversed (worst first); for `N` ranked participants the entry at
index `i` carries `ranking = N - i` together with the participant's winner
flag, solver name and address, executed amounts, clearing prices and score;
hence the worst solution (index 0) has ranking `N` while the best solution
(index `N - 1`) has ranking `1`. -/
theorem c6_competition_table (solutions : List RankedParticipant)
    (hne : 0 < solutions.length) :
    (∀ i, (tableSolutions solutions)[i]? =
        (solutions.reverse[i]?).map
          (fun p => settlementRow p (solutions.length - i)))
      ∧ (tableSolutions solutions)[solutions.length - 1]? =
          (solutions[0]?).map (fun p => settlementRow p 1)
      ∧ (tableSolutions solutions)[0]? =
          (solutions[solutions.length - 1]?).map
            (fun p => settlementRow p solutions.length) := by
  refine ⟨fun i => tableSolutions_getElem solutions i, ?_, ?_⟩
  · rw [tableSolutions_getElem]
    rw [List.getElem?_reverse (by omega)]
    have h1 : solutions.length - 1 - (solutions.length - 1) = 0 := by omega
    have h2 : solutions.length - (solutions.length - 1) = 1 := by omega
    rw [h1, h2]
  · rw [tableSolutions_getElem]
    rw [List.getElem?_reverse (by omega)]
    have h1 : solutions.length - 1 - 0 = solutions.length - 1 := by omega
    have h2 : solutions.length - 0 = solutions.length := by omega
    rw [h1, h2]

/-- Counterexample to C6: for the concrete two-element ranked sequence
`[best, worst]` the table entry holding the best solution (index 1, solver
address and score of `exPA`) carries `ranking = 1`, not `ranking = N = 2` as
the claim states for the best solution. -/
theorem c6_counterexample :
    ((tableSolutions [⟨exPA, true⟩, ⟨exPB, false⟩])[1]?).map
        (fun s => (s.solver_address, s.score, s.ranking))
      = some (exPA.solution.solver, exPA.solution.score, 1)
      ∧ ((tableSolutions [⟨exPA, true⟩, ⟨exPB, false⟩])[1]?).map
          (fun s => s.ranking) ≠ some 2 := by
  decide

/-- Witness for `c6_competition_table` at the concrete two-element ranked
sequence `[best, worst]`. -/
theorem c6_competition_table_witness :
    (∀ i, (tableSolutions [⟨exPA, true⟩, ⟨exPB, false⟩])[i]? =
        (([⟨exPA, true⟩, ⟨exPB, false⟩] : List RankedParticipant).reverse[i]?).map
          (fun p => settlementRow p
            (([⟨exPA, true⟩, ⟨exPB, false⟩] : List RankedParticipant).length - i)))
      ∧ (tableSolutions [⟨exPA, true⟩, ⟨exPB, false⟩])[
            ([⟨exPA, true⟩, ⟨exPB, false⟩] : List RankedParticipant).length - 1]? =
          (([⟨exPA, true⟩, ⟨exPB, false⟩] : List RankedParticipant)[0]?).map
            (fun p => settlementRow p 1)
      ∧ (tableSolutions [⟨exPA, true⟩, ⟨exPB, false⟩])[0]? =
          (([⟨exPA, true⟩, ⟨exPB, false⟩] : List RankedParticipant)[
              ([⟨exPA, true⟩, ⟨exPB, false⟩] : List RankedParticipant).length - 1]?).map
            (fun p => settlementRow p
              ([⟨exPA, true⟩, ⟨exPB, false⟩] : List RankedParticipant).length) :=
  c6_competition_table [⟨exPA, true⟩, ⟨exPB, false⟩] (by norm_num)

theorem find?_isWinner_first (l : List RankedParticipant) (w : RankedParticipant) :
    l.find? (·.is_winner) = some w ↔
      ∃ pre post, l = pre ++ w :: post
        ∧ (∀ p ∈ pre, p.is_winner = false) ∧ w.is_winner = true := by
  induction l with
  | nil =>
    constructor
    · intro h
      simp [List.find?] at h
    · rintro ⟨pre, post, heq, hpre, hw⟩
      exact absurd heq (by simp)
  | cons x rest ih =>
    by_cases hx : x.is_winner = true
    · rw [List.find?_cons_of_pos rest hx]
      constructor
      · intro h
        have hxw : x = w := Option.some.inj h
        subst hxw
        exact ⟨[], rest, rfl, by simp, hx⟩
      · rintro ⟨pre, post, heq, hpre, hw⟩
        cases pre with
        | nil =>
          simp only [List.nil_append, List.cons.injEq] at heq
          rw [heq.1]
        | cons q pre2 =>
          simp only [List.cons_append, List.cons.injEq] at heq
          have hq : q.is_winner = false := hpre q (by simp)
          rw [← heq.1] at hq
          rw [hx] at hq
          cases hq
    · rw [List.find?_cons_of_neg rest hx]
      rw [ih]
      constructor
      · rintro ⟨pre, post, heq, hpre, hw⟩
        refine ⟨x :: pre, post, by rw [List.cons_append, heq], ?_, hw⟩
        intro p hp
        rcases List.mem_cons.mp hp with hpx | hpp
        · rw [hpx]
          simpa using hx
        · exact hpre p hpp
      · rintro ⟨pre, post, heq, hpre, hw⟩
        cases pre with
        | nil =>
          simp only [List.nil_append, List.cons.injEq] at heq
          rw [heq.1] at hx
          exact absurd hw hx
        | cons q pre2 =>
          simp only [List.cons_append, List.cons.injEq] at heq
          exact ⟨pre2, post, heq.2, fun p hp => hpre p (by simp [hp]), hw⟩

/-- C7: post-processing identifies the winning solution as the first ranked
participant marked winner (`find?` returns `some w` exactly when the ranked
sequence splits as `pre ++ w :: post` with no winner in `pre` and `w` a
winner), fails with an error when no winner exists, and otherwise sets
`winning_score` to the winner's score and `reference_score` to the score of
the participant at position 1, or 0 when the sequence has fewer than two
elements. -/
theorem c7_first_winner_scores (auction : Auction) (sb : Nat)
    (solutions : List RankedParticipant) (bd : Nat) (w : RankedParticipant) :
    (solutions.find? (·.is_winner) = none →
        buildCompetition auction sb solutions bd = .error "no winners found")
      ∧ (solutions.find? (·.is_winner) = some w ↔
          ∃ pre post, solutions = pre ++ w :: post
            ∧ (∀ p ∈ pre, p.is_winner = false) ∧ w.is_winner = true)
      ∧ (solutions.find? (·.is_winner) = some w →
          (buildCompetition auction sb solutions bd).toOption.map
              (fun c => (c.winner, c.winning_score, c.reference_score))
            = some (w.participant.solution.solver,
                w.participant.solution.score,
                ((solutions[1]?).map
                  (fun p => p.participant.solution.score)).getD 0)) := by
  refine ⟨fun h => ?_, find?_isWinner_first solutions w, fun h => ?_⟩
  · unfold buildCompetition
    rw [h]
  · unfold buildCompetition
    rw [h]
    rfl

/-- Witness for `c7_first_winner_scores` at the concrete ranked sequence
`[winner exPA, loser exPB]`. -/
theorem c7_first_winner_scores_witness :
    (([⟨exPA, true⟩, ⟨exPB, false⟩] : List RankedParticipant).find?
          (·.is_winner) = none →
        buildCompetition fairAuction 3 [⟨exPA, true⟩, ⟨exPB, false⟩] 9
          = .error "no winners found")
      ∧ (([⟨exPA, true⟩, ⟨exPB, false⟩] : List RankedParticipant).find?
            (·.is_winner) = some ⟨exPA, true⟩ ↔
          ∃ pre post, ([⟨exPA, true⟩, ⟨exPB, false⟩] : List RankedParticipant)
              = pre ++ ⟨exPA, true⟩ :: post
            ∧ (∀ p ∈ pre, p.is_winner = false)
            ∧ (⟨exPA, true⟩ : RankedParticipant).is_winner = true)
      ∧ (([⟨exPA, true⟩, ⟨exPB, false⟩] : List RankedParticipant).find?
            (·.is_winner) = some ⟨exPA, true⟩ →
          (buildCompetition fairAuction 3 [⟨exPA, true⟩, ⟨exPB, false⟩] 9).toOption.map
              (fun c => (c.winner, c.winning_score, c.reference_score))
            = some ((⟨exPA, true⟩ : RankedParticipant).participant.solution.solver,
                (⟨exPA, true⟩ : RankedParticipant).participant.solution.score,
                ((([⟨exPA, true⟩, ⟨exPB, false⟩] : List RankedParticipant)[1]?).map
                  (fun p => p.participant.solution.score)).getD 0)) :=
  c7_first_winner_scores fairAuction 3 [⟨exPA, true⟩, ⟨exPB, false⟩] 9 ⟨exPA, true⟩

/-- C8: when the competition record builds successfully, post-processing
always dispatches `save_auction` and `save_solutions`, publishes the
competition-updates notification exactly when both succeed — positioned
after the first save group and before the second save group in the effect
trace (a failure of the first group is logged instead and the iteration
continues) — and the iteration result is success iff all of
`save_competition`, `save_surplus_capturing_jit_order_owners` and
`store_fee_policies` succeed. -/
theorem c8_save_groups (env : SaveEnv) (auction : Auction) (sb : Nat)
    (solutions : List RankedParticipant) (bd : Nat)
    (hok : (buildCompetition auction sb solutions bd).isOk = true) :
    (post_processing env auction sb solutions bd).1
        = [PPEffect.saveAuction, PPEffect.saveSolutions]
          ++ (if env.saveAuctionOk && env.saveSolutionsOk
              then [PPEffect.notifyCompetitionUpdates]
              else [PPEffect.logSaveGroupFailure])
          ++ [PPEffect.saveCompetition, PPEffect.saveJitOwners,
              PPEffect.storeFeePolicies]
      ∧ ((post_processing env auction sb solutions bd).2.isOk = true ↔
          (env.saveCompetitionOk && env.saveJitOwnersOk
            && env.storeFeePoliciesOk) = true)
      ∧ (PPEffect.notifyCompetitionUpdates
            ∈ (post_processing env auction sb solutions bd).1 ↔
          (env.saveAuctionOk && env.saveSolutionsOk) = true) := by
  cases hbc : buildCompetition auction sb solutions bd with
  | error e =>
    rw [hbc] at hok
    simp [Except.isOk, Except.toBool] at hok
  | ok c =>
    obtain ⟨sa, ss, sc, sj, sf⟩ := env
    unfold post_processing
    rw [hbc]
    cases sa <;> cases ss <;> cases sc <;> cases sj <;> cases sf <;>
      simp [Except.isOk, Except.toBool]

/-- Witness for `c8_save_groups`: concrete run in which the first save group
fails (`save_auction` fails, so no notification) while the second save group
succeeds. -/
theorem c8_save_groups_witness :
    (post_processing ⟨false, true, true, true, true⟩ fairAuction 3
          [⟨exPA, true⟩, ⟨exPB, false⟩] 9).1
        = [PPEffect.saveAuction, PPEffect.saveSolutions]
          ++ (if (SaveEnv.mk false true true true true).saveAuctionOk
                && (SaveEnv.mk false true true true true).saveSolutionsOk
              then [PPEffect.notifyCompetitionUpdates]
              else [PPEffect.logSaveGroupFailure])
          ++ [PPEffect.saveCompetition, PPEffect.saveJitOwners,
              PPEffect.storeFeePolicies]
      ∧ ((post_processing ⟨false, true, true, true, true⟩ fairAuction 3
            [⟨exPA, true⟩, ⟨exPB, false⟩] 9).2.isOk = true ↔
          ((SaveEnv.mk false true true true true).saveCompetitionOk
            && (SaveEnv.mk false true true true true).saveJitOwnersOk
            && (SaveEnv.mk false true true true true).storeFeePoliciesOk) = true)
      ∧ (PPEffect.notifyCompetitionUpdates
            ∈ (post_processing ⟨false, true, true, true, true⟩ fairAuction 3
              [⟨exPA, true⟩, ⟨exPB, false⟩] 9).1 ↔
          ((SaveEnv.mk false true true true true).saveAuctionOk
            && (SaveEnv.mk false true true true true).saveSolutionsOk) = true) :=
  c8_save_groups ⟨false, true, true, true, true⟩ fairAuction 3
    [⟨exPA, true⟩, ⟨exPB, false⟩] 9 (by decide)

/-- Race environment of `RunLoop::settle`: which branch of the
`futures::future::select` finishes first, the result of transaction
discovery (`Err` is the deadline timeout) and the result of the driver
`settle` call. -/
structure SettleEnv where
  waitFirst : Bool
  waitResult : Except Unit Nat
  driverResult : Except String Unit
deriving Repr

/-- The error type of `RunLoop::settle` (`SettleError`). -/
inductive SettleError
  | timeout
  | other (msg : String)
deriving DecidableEq, Repr

/-- Resolution of the settle race (run_loop.rs lines 808-822): if
transaction discovery finishes first its result wins; otherwise a driver
success awaits discovery and a driver error becomes `Other`. -/
def settleRace (env : SettleEnv) : Except SettleError Nat :=
  let waitOutcome : Except SettleError Nat :=
    match env.waitResult with
    | .ok tx => .ok tx
    | .error _ => .error .timeout
  if env.waitFirst then waitOutcome
  else
    match env.driverResult with
    | .ok _ => waitOutcome
    | .error e => .error (.other e)

/-- Insertion of the solved order uids into the in-flight set before the
settle dispatch (`RunLoop::start_settlement_execution`, run_loop.rs lines
314-318, `HashSet::extend`). -/
def start_settlement_execution (in_flight solved_order_uids : Finset OrderUid) :
    Finset OrderUid :=
  in_flight ∪ solved_order_uids

/-- The tail of `RunLoop::settle` (run_loop.rs lines 814-832): resolve the
race, then remove the solved uids from the in-flight set regardless of the
result (`retain(|order| !solved_order_uids.contains(order))`). -/
def settle (env : SettleEnv) (in_flight solved_order_uids : Finset OrderUid) :
    Except SettleError Nat × Finset OrderUid :=
  (settleRace env, in_flight.filter (fun o => o ∉ solved_order_uids))

/-- Counterexample to C9: inserting and then removing the same uid set does
not leave every starting in-flight set unchanged.  Starting from the set
`{u}` and settling the uid set `{u}`, the final set is empty, because
`retain` removes the uid even though it was already in flight before the
insertion. -/
theorem c9_counterexample :
    (settle ⟨true, Except.error (), Except.ok ()⟩
        (start_settlement_execution {⟨1, 1⟩} {⟨1, 1⟩}) {⟨1, 1⟩}).2
      ≠ ({⟨1, 1⟩} : Finset OrderUid) := by
  decide

/-- C9 (amended): the solved uids are all inserted into the in-flight set
before dispatch, and after the race resolves — whatever the outcome — they
are all removed; inserting and then removing the uid set `U` over a starting
set `S` yields `S \ U`, which equals `S` exactly when `S` and `U` are
disjoint (the normal case, since in-flight orders are excluded from
subsequent auctions), not for every starting set. -/
theorem c9_inflight_bookkeeping (env : SettleEnv)
    (S U : Finset OrderUid) :
    U ⊆ start_settlement_execution S U
      ∧ (settle env (start_settlement_execution S U) U).1 = settleRace env
      ∧ (settle env (start_settlement_execution S U) U).2 = S \ U
      ∧ (Disjoint S U →
          (settle env (start_settlement_execution S U) U).2 = S) := by
  have hmain : (settle env (start_settlement_execution S U) U).2 = S \ U := by
    show (S ∪ U).filter (fun o => o ∉ U) = S \ U
    rw [← Finset.sdiff_eq_filter, Finset.union_sdiff_right]
  refine ⟨Finset.subset_union_right, rfl, hmain, fun hd => ?_⟩
  rw [hmain]
  exact Finset.sdiff_eq_self_iff_disjoint.mpr hd

/-- Witness for `c9_inflight_bookkeeping` at the disjoint concrete sets
`S = {(1,1)}` and `U = {(2,2)}` with a timeout race outcome. -/
theorem c9_inflight_bookkeeping_witness :
    ({⟨2, 2⟩} : Finset OrderUid)
        ⊆ start_settlement_execution {⟨1, 1⟩} {⟨2, 2⟩}
      ∧ (settle ⟨false, Except.error (), Except.ok ()⟩
            (start_settlement_execution {⟨1, 1⟩} {⟨2, 2⟩}) {⟨2, 2⟩}).1
          = settleRace ⟨false, Except.error (), Except.ok ()⟩
      ∧ (settle ⟨false, Except.error (), Except.ok ()⟩
            (start_settlement_execution {⟨1, 1⟩} {⟨2, 2⟩}) {⟨2, 2⟩}).2
          = ({⟨1, 1⟩} : Finset OrderUid) \ {⟨2, 2⟩}
      ∧ (Disjoint ({⟨1, 1⟩} : Finset OrderUid) {⟨2, 2⟩} →
          (settle ⟨false, Except.error (), Except.ok ()⟩
              (start_settlement_execution {⟨1, 1⟩} {⟨2, 2⟩}) {⟨2, 2⟩}).2
            = ({⟨1, 1⟩} : Finset OrderUid)) :=
  c9_inflight_bookkeeping ⟨false, Except.error (), Except.ok ()⟩ {⟨1, 1⟩} {⟨2, 2⟩}

/-- Effects performed by one tick of the run-loop driver, in program order. -/
inductive Effect
  | runMaintenance
  | cacheUpdate
  | replaceCurrentAuction
  | livenessRefresh
  | metricsAuctionReady
  | storeOrderEventsReady
  | solveCall
  | postProcess
deriving DecidableEq, Repr

/-- Environment of one tick: what the solvable-orders cache returns, what
`replace_current_auction` returns, the current block hash, the in-flight
set, the number of configured drivers and whether the competition produces
any solutions. -/
structure TickEnv where
  cacheAuction : Option RawAuctionData
  replaceResult : Except Unit Int
  blockHash : Nat
  inFlight : Finset OrderUid
  driverCount : Nat
  solutionsNonempty : Bool

/-- `RunLoop::remove_in_flight_orders` (run_loop.rs lines 941-960): orders
whose uid is in flight are dropped, and JIT owners equal to the owner
projection of some in-flight uid are dropped; an empty in-flight set leaves
the auction untouched. -/
def remove_in_flight_orders (inFlight : Finset OrderUid)
    (auction : RawAuctionData) : RawAuctionData :=
  if inFlight = ∅ then auction
  else
    { auction with
      orders := auction.orders.filter (fun o => decide (o.uid ∉ inFlight))
      surplus_capturing_jit_order_owners :=
        auction.surplus_capturing_jit_order_owners.filter
          (fun a => decide (∀ i ∈ inFlight, ¬ i.owner = a)) }

/-- `RunLoop::cut_auction` (run_loop.rs lines 197-232): ask the cache,
filter in-flight orders, persist through `replace_current_auction` — a
persistence write that happens on every tick reaching this point — then
skip empty auctions with a liveness refresh, otherwise return the auction
with the id assigned by persistence. -/
def cut_auction (env : TickEnv) : List Effect × Option Auction :=
  match env.cacheAuction with
  | none => ([], none)
  | some raw =>
    let auction := remove_in_flight_orders env.inFlight raw
    match env.replaceResult with
    | .error _ => ([Effect.replaceCurrentAuction], none)
    | .ok id =>
      if auction.orders = [] then
        ([Effect.replaceCurrentAuction, Effect.livenessRefresh], none)
      else
        ([Effect.replaceCurrentAuction],
          some ⟨id, auction.block, auction.orders, auction.prices,
            auction.surplus_capturing_jit_order_owners⟩)

/-- The previous-iteration memo of the loop driver. -/
structure LoopState where
  prev_auction : Option Auction
  prev_block : Option Nat
deriving DecidableEq, Repr

/-- `RunLoop::next_auction` (run_loop.rs lines 134-187): maintenance and the
solvable-orders refresh always run; after cutting, the iteration is skipped
when the auction equals the previous one and (checked only in that case,
since `&&` short-circuits and `prev_block.replace` sits in its right
operand) the stored block hash equals the current one; otherwise liveness
is refreshed, metrics are recorded and the auction is returned. -/
def next_auction (env : TickEnv) (st : LoopState) :
    LoopState × Option Auction × List Effect :=
  let eff0 := [Effect.runMaintenance, Effect.cacheUpdate]
  let cut := cut_auction env
  match cut.2 with
  | none => (st, none, eff0 ++ cut.1)
  | some auction =>
    let previous := st.prev_auction
    let st1 : LoopState := ⟨some auction, st.prev_block⟩
    if previous = some auction then
      let oldBlock := st1.prev_block
      let st2 : LoopState := ⟨st1.prev_auction, some env.blockHash⟩
      if oldBlock = some env.blockHash then
        (st2, none, eff0 ++ cut.1)
      else
        (st2, some auction,
          eff0 ++ cut.1 ++ [Effect.livenessRefresh, Effect.metricsAuctionReady])
    else
      (st1, some auction,
        eff0 ++ cut.1 ++ [Effect.livenessRefresh, Effect.metricsAuctionReady])

/-- One tick of `RunLoop::run_forever` (run_loop.rs lines 118-129 and
234-302): when `next_auction` yields an auction, `single_run` marks the
auction orders ready, dispatches one solve per driver and post-processes
when solutions are present; when it yields none, nothing further happens. -/
def tick (env : TickEnv) (st : LoopState) : LoopState × List Effect :=
  let na := next_auction env st
  match na.2.1 with
  | none => (na.1, na.2.2)
  | some _ =>
    (na.1, na.2.2
      ++ [Effect.storeOrderEventsReady]
      ++ List.replicate env.driverCount Effect.solveCall
      ++ (if env.solutionsNonempty then [Effect.postProcess] else []))

/-- A concrete raw auction with a single order and no prices. -/
def rawA : RawAuctionData :=
  ⟨1, [⟨⟨9, 9⟩, Token.erc20 1, Token.erc20 2, []⟩], [], []⟩

/-- The domain auction obtained from `rawA` under id 7. -/
def auctionA : Auction :=
  ⟨7, 1, [⟨⟨9, 9⟩, Token.erc20 1, Token.erc20 2, []⟩], [], []⟩

/-- A tick environment in which the cache returns `rawA`, persistence
assigns id 7 and the current block hash is 5. -/
def envA : TickEnv := ⟨some rawA, Except.ok 7, 5, ∅, 3, true⟩

/-- The memo after a previous tick that produced `auctionA` at block hash 5. -/
def stA : LoopState := ⟨some auctionA, some 5⟩

/-- Counterexample to C4: on the skipped tick the conditions of the claim
hold — the cache returned the same auction (`auctionA`) at the same block
hash (5) as the previous tick — and indeed no solve, ready-marking or
post-processing happens, but the tick is not free of persistence writes:
`replace_current_auction` has already been called, and no liveness refresh
happens on this path either (the refresh sits after the early return). -/
theorem c4_counterexample :
    cut_auction envA = ([Effect.replaceCurrentAuction], some auctionA)
      ∧ stA.prev_auction = some auctionA
      ∧ stA.prev_block = some envA.blockHash
      ∧ (tick envA stA).2
          = [Effect.runMaintenance, Effect.cacheUpdate,
              Effect.replaceCurrentAuction]
      ∧ Effect.replaceCurrentAuction ∈ (tick envA stA).2
      ∧ Effect.solveCall ∉ (tick envA stA).2
      ∧ Effect.postProcess ∉ (tick envA stA).2
      ∧ Effect.livenessRefresh ∉ (tick envA stA).2 := by
  decide

/-- C4 (amended): when the cut yields the same auction as the previous tick
with an unchanged block hash, the tick returns no auction, so there are no
driver solve calls, no order-event writes and no post-processing; but it is
not free of side effects beyond a liveness refresh: maintenance and the
cache refresh run, `replace_current_auction` — a persistence write — has
already been performed by the cut, and liveness is not refreshed on this
path. -/
theorem c4_idempotent_skip (env : TickEnv) (st : LoopState) (a : Auction)
    (hcut : cut_auction env = ([Effect.replaceCurrentAuction], some a))
    (hprev : st.prev_auction = some a)
    (hblock : st.prev_block = some env.blockHash) :
    (tick env st).2
        = [Effect.runMaintenance, Effect.cacheUpdate,
            Effect.replaceCurrentAuction]
      ∧ Effect.solveCall ∉ (tick env st).2
      ∧ Effect.storeOrderEventsReady ∉ (tick env st).2
      ∧ Effect.postProcess ∉ (tick env st).2
      ∧ Effect.livenessRefresh ∉ (tick env st).2
      ∧ Effect.replaceCurrentAuction ∈ (tick env st).2
      ∧ (tick env st).1 = ⟨some a, some env.blockHash⟩ := by
  have hna : next_auction env st
      = (⟨some a, some env.blockHash⟩, none,
          [Effect.runMaintenance, Effect.cacheUpdate,
            Effect.replaceCurrentAuction]) := by
    unfold next_auction
    rw [hcut, hprev, hblock]
    simp
  have ht : tick env st
      = (⟨some a, some env.blockHash⟩,
          [Effect.runMaintenance, Effect.cacheUpdate,
            Effect.replaceCurrentAuction]) := by
    unfold tick
    rw [hna]
  rw [ht]
  refine ⟨rfl, ?_, ?_, ?_, ?_, ?_, rfl⟩ <;> simp

/-- Witness for `c4_idempotent_skip` at the concrete environment `envA` and
memo `stA`. -/
theorem c4_idempotent_skip_witness :
    (tick envA stA).2
        = [Effect.runMaintenance, Effect.cacheUpdate,
            Effect.replaceCurrentAuction]
      ∧ Effect.solveCall ∉ (tick envA stA).2
      ∧ Effect.storeOrderEventsReady ∉ (tick envA stA).2
      ∧ Effect.postProcess ∉ (tick envA stA).2
      ∧ Effect.livenessRefresh ∉ (tick envA stA).2
      ∧ Effect.replaceCurrentAuction ∈ (tick envA stA).2
      ∧ (tick envA stA).1 = ⟨some auctionA, some envA.blockHash⟩ :=
  c4_idempotent_skip envA stA auctionA (by decide) (by decide) (by decide)

/-- The authenticity filter of `RunLoop::competition` (run_loop.rs lines
538-554): participants whose solution solver differs from their driver's
submission address are dropped. -/
def authenticityFilter (ps : List Participant) : List Participant :=
  ps.filter (fun p => decide (p.solution.solver = p.driver.submission_address))

/-- Bump of the per-driver counter used by the per-solver cap
(`counter.entry(driver).or_insert(0); *count += 1`). -/
def bumpCount (counts : List (String × Nat)) (driver : String) :
    List (String × Nat) :=
  match assocLookup driver counts with
  | some _ => counts.map (fun e => if e.1 = driver then (e.1, e.2 + 1) else e)
  | none => counts ++ [(driver, 1)]

/-- The per-solver cap of `RunLoop::competition` (run_loop.rs lines
556-564): at most `maxS` participants are retained per driver, preserving
order; the counter is bumped for dropped participants too. -/
def capPerSolver (maxS : Nat) (counts : List (String × Nat)) :
    List Participant → List Participant
  | [] => []
  | p :: rest =>
    if (assocLookup p.driver.name counts).getD 0 + 1 ≤ maxS then
      p :: capPerSolver maxS (bumpCount counts p.driver.name) rest
    else capPerSolver maxS (bumpCount counts p.driver.name) rest

/-- The competition pipeline of `RunLoop::competition` after collection
(run_loop.rs lines 522-614): some uniform shuffle, the unstable score sort,
the authenticity filter, the per-solver cap, the fairness filter and winner
selection from the empty state. -/
def competitionResult (auction : Auction) (wrappedNative maxW maxS : Nat)
    (collected : List Participant) (out : List RankedParticipant) : Prop :=
  ∃ shuffled sorted,
    collected.Perm shuffled
      ∧ isScoreSortOutput shuffled sorted
      ∧ out = selectWinners wrappedNative maxW ⟨∅, 0⟩
          (fairnessFilter auction
            (capPerSolver maxS [] (authenticityFilter sorted)))

theorem capPerSolver_sublist (maxS : Nat) (counts : List (String × Nat))
    (ps : List Participant) :
    List.Sublist (capPerSolver maxS counts ps) ps := by
  induction ps generalizing counts with
  | nil => simp [capPerSolver]
  | cons p rest ih =>
    by_cases hc : (assocLookup p.driver.name counts).getD 0 + 1 ≤ maxS
    · rw [capPerSolver, if_pos hc]
      exact List.Sublist.cons₂ p (ih _)
    · rw [capPerSolver, if_neg hc]
      exact List.Sublist.cons p (ih _)

theorem fairnessFilter_sublist (auction : Auction) (ps : List Participant) :
    List.Sublist (fairnessFilter auction ps) ps := by
  induction ps with
  | nil => simp [fairnessFilter]
  | cons p rest ih =>
    by_cases hf : is_solution_fair p (p :: rest) auction = true
    · rw [fairnessFilter, if_pos hf]
      exact List.Sublist.cons₂ p ih
    · rw [fairnessFilter, if_neg hf]
      exact List.Sublist.cons p ih

theorem foldr_max_le (t : List Nat) (a : Nat) (h : ∀ x ∈ t, x ≤ a) :
    t.foldr max 0 ≤ a := by
  induction t with
  | nil => exact Nat.zero_le a
  | cons x rest ih =>
    simp only [List.foldr_cons]
    exact max_le (h x (by simp)) (ih (fun y hy => h y (by simp [hy])))

theorem head_eq_foldr_max (q : Participant) (l : List Participant)
    (hs : scoreDescSorted (q :: l)) :
    q.solution.score
      = ((q :: l).map (fun p => p.solution.score)).foldr max 0 := by
  have hall : ∀ x ∈ l.map (fun p => p.solution.score), x ≤ q.solution.score := by
    intro x hx
    rcases List.mem_map.mp hx with ⟨p, hp, hxe⟩
    have hle := (List.sorted_cons.mp hs).1 p hp
    omega
  simp only [List.map_cons, List.foldr_cons]
  exact (max_eq_left (foldr_max_le _ _ hall)).symm

/-- C10: when the competition pipeline returns a non-empty ranked sequence
and `max_winners_per_auction ≥ 1`, the first (best) participant is marked
winner — its token set is trivially disjoint from the initially empty
`swapped_tokens` set — so `find?` locates it immediately, the
"no winners found" error branch of post-processing is unreachable, and the
winning score equals the maximum score among the ranked participants. -/
theorem c10_best_always_wins (auction : Auction)
    (wrappedNative maxW maxS : Nat) (collected : List Participant)
    (out : List RankedParticipant) (p : RankedParticipant)
    (rest : List RankedParticipant)
    (hres : competitionResult auction wrappedNative maxW maxS collected out)
    (hout : out = p :: rest) (hm : 1 ≤ maxW) :
    p.is_winner = true
      ∧ out.find? (·.is_winner) = some p
      ∧ p.participant.solution.score
          = (out.map (fun r => r.participant.solution.score)).foldr max 0
      ∧ ∀ sb bd,
          (buildCompetition auction sb out bd).toOption.map
              (fun c => c.winning_score)
            = some ((out.map
                (fun r => r.participant.solution.score)).foldr max 0) := by
  obtain ⟨shuffled, sorted, hperm, hsort, heq⟩ := hres
  have hsub : List.Sublist
      (fairnessFilter auction (capPerSolver maxS [] (authenticityFilter sorted)))
      sorted :=
    ((fairnessFilter_sublist auction _).trans
      (capPerSolver_sublist maxS [] _)).trans (List.filter_sublist sorted)
  have hsorted_input : scoreDescSorted
      (fairnessFilter auction (capPerSolver maxS [] (authenticityFilter sorted))) :=
    List.Pairwise.sublist hsub hsort.2
  cases hin : fairnessFilter auction
      (capPerSolver maxS [] (authenticityFilter sorted)) with
  | nil =>
    rw [hin] at heq
    rw [hout] at heq
    simp [selectWinners] at heq
  | cons q qrest =>
    rw [hin] at heq hsorted_input
    have hcons : selectWinners wrappedNative maxW ⟨∅, 0⟩ (q :: qrest)
        = (selStep wrappedNative maxW ⟨∅, 0⟩ q).1
            :: selectWinners wrappedNative maxW
              (selStep wrappedNative maxW ⟨∅, 0⟩ q).2 qrest := rfl
    rw [hout, hcons] at heq
    simp only [List.cons.injEq] at heq
    have hflag : (decide (participantTokens wrappedNative q
          ∩ (∅ : Finset Nat) = ∅) && decide ((0 : Nat) < maxW)) = true := by
      simp [Finset.inter_empty]
      omega
    have hp : p = ⟨q, true⟩ := by
      rw [heq.1]
      show RankedParticipant.mk q
          (decide (participantTokens wrappedNative q ∩ (∅ : Finset Nat) = ∅)
            && decide ((0 : Nat) < maxW)) = ⟨q, true⟩
      rw [hflag]
    have heqo : out = selectWinners wrappedNative maxW ⟨∅, 0⟩ (q :: qrest) := by
      rw [hout, hcons, heq.1, heq.2]
    have hwin : p.is_winner = true := by rw [hp]
    have hmap : out.map (fun r => r.participant) = q :: qrest := by
      rw [heqo]
      exact map_participant_selectWinners wrappedNative maxW ⟨∅, 0⟩ (q :: qrest)
    have hscores : out.map (fun r => r.participant.solution.score)
        = (q :: qrest).map (fun pp => pp.solution.score) := by
      rw [← hmap, List.map_map]
      rfl
    have hfind : out.find? (·.is_winner) = some p := by
      rw [hout]
      exact List.find?_cons_of_pos rest hwin
    have hscore : p.participant.solution.score
        = (out.map (fun r => r.participant.solution.score)).foldr max 0 := by
      rw [hscores, hp]
      exact head_eq_foldr_max q qrest hsorted_input
    refine ⟨hwin, hfind, hscore, fun sb bd => ?_⟩
    unfold buildCompetition
    rw [hfind]
    rw [← hscore]
    rfl

/-- A concrete participant whose solver matches its driver's submission
address and whose driver has no fairness threshold. -/
def partW : Participant := ⟨⟨0, 1, 5, [], []⟩, ⟨"w", 1, none⟩⟩

/-- Witness for `c10_best_always_wins`: one collected participant `partW`,
`max_winners_per_auction = 1`, identity shuffle and sort. -/
theorem c10_best_always_wins_witness :
    (⟨partW, true⟩ : RankedParticipant).is_winner = true
      ∧ ([⟨partW, true⟩] : List RankedParticipant).find? (·.is_winner)
          = some ⟨partW, true⟩
      ∧ (⟨partW, true⟩ : RankedParticipant).participant.solution.score
          = (([⟨partW, true⟩] : List RankedParticipant).map
              (fun r => r.participant.solution.score)).foldr max 0
      ∧ ∀ sb bd,
          (buildCompetition fairAuction sb [⟨partW, true⟩] bd).toOption.map
              (fun c => c.winning_score)
            = some ((([⟨partW, true⟩] : List RankedParticipant).map
                (fun r => r.participant.solution.score)).foldr max 0) :=
  c10_best_always_wins fairAuction 0 1 1 [partW] [⟨partW, true⟩]
    ⟨partW, true⟩ []
    ⟨[partW], [partW], List.Perm.refl _,
      ⟨List.Perm.refl _, by simp [scoreDescSorted]⟩, by decide⟩
    rfl (by norm_num)
